import Mathlib

/-!
Verification of the rekt voice-recorder against its specification.

The audio core (sample normalizer, capture engine, WAV container writer,
playback engine) is embedded shallowly.  The sample normalizer is taken
from the Rust snippet reproduced verbatim in the repository README; the
frontend `stopRecording` wrapper is taken from `src/lib/recording.ts`.
The remaining backend components are not present in the repository
snapshot and are modelled from the specification text, as marked on each
definition.

Floats are modelled as exact rationals.  Every constant the claims
evaluate (1.0, -1.0, 0.5, 32767.0 and their clamped products) is exactly
representable in IEEE binary32 and the operations on them are exact, so
the rational model agrees with the f32 computation at those inputs.
-/

namespace Rekt

/-- Truncation toward zero: the rounding Rust's `as` cast performs when
converting a float to an integer type. -/
def truncTowardZero (q : ℚ) : ℤ := if 0 ≤ q then ⌊q⌋ else ⌈q⌉

/-- Rust's saturating float-to-`i16` cast: values below the `i16` range
saturate to -32768, values above it to 32767, all others truncate toward
zero. -/
def castF32ToI16 (q : ℚ) : ℤ :=
  if q < -32768 then -32768 else if 32767 < q then 32767 else truncTowardZero q

/-- The f32 arm of the Sample Normalizer, from the README's Rust snippet
`(sample.max(-1.0).min(1.0) * i16::MAX as f32) as i16`. -/
def f32SampleToI16 (x : ℚ) : ℤ := castF32ToI16 (min (max x (-1)) 1 * 32767)

/-- The conversion the spec sentence describes, following its words:
`signed = round(clamp(x, -1.0, 1.0) * 32767)`.  Stated only to be
compared with `f32SampleToI16`, the definition taken from the source. -/
def specRoundNorm (x : ℚ) : ℤ := round (min (max x (-1)) 1 * 32767)

/-- The u16 arm of the Sample Normalizer, from the README's Rust snippet
`((sample as i32) - 32768) as i16`. -/
def u16SampleToI16 (u : ℕ) : ℤ := (u : ℤ) - 32768

theorem clamp_lower_bound (x : ℚ) : -1 ≤ min (max x (-1)) 1 := by
  apply le_min (le_max_right x (-1))
  norm_num

theorem clamp_upper_bound (x : ℚ) : min (max x (-1)) 1 ≤ 1 := min_le_right _ _

theorem truncTowardZero_le (q : ℚ) (n : ℤ) (h : q ≤ (n : ℚ)) :
    truncTowardZero q ≤ n := by
  unfold truncTowardZero
  split
  · calc ⌊q⌋ ≤ ⌊(n : ℚ)⌋ := Int.floor_le_floor h
    _ = n := Int.floor_intCast n
  · calc ⌈q⌉ ≤ ⌈(n : ℚ)⌉ := Int.ceil_le_ceil h
    _ = n := Int.ceil_intCast n

theorem le_truncTowardZero (q : ℚ) (n : ℤ) (h0 : n ≤ 0) (h : (n : ℚ) ≤ q) :
    n ≤ truncTowardZero q := by
  unfold truncTowardZero
  split
  · calc n ≤ 0 := h0
    _ ≤ ⌊q⌋ := Int.floor_nonneg.mpr (by assumption)
  · calc n = ⌈(n : ℚ)⌉ := (Int.ceil_intCast n).symm
    _ ≤ ⌈q⌉ := Int.ceil_le_ceil h

/-- C1 counterexample: the code's normalizer sends -1.0 to -32767, not to
the -32768 the claim states, and at 0.5 the code truncates to 16383 while
the claim's round formula yields 16384. -/
theorem c1_normalizer_claim_fails :
    f32SampleToI16 (-1) = -32767 ∧ ((-32767 : ℤ) = -32768 → False) ∧
    f32SampleToI16 (1 / 2) = 16383 ∧ specRoundNorm (1 / 2) = 16384 := by
  refine ⟨?_, by decide, ?_, ?_⟩
  · unfold f32SampleToI16 castF32ToI16 truncTowardZero
    norm_num [Int.ceil_eq_iff]
  · unfold f32SampleToI16 castF32ToI16 truncTowardZero
    norm_num [Int.floor_eq_iff]
  · unfold specRoundNorm
    norm_num [round_eq, Int.floor_eq_iff]

/-- C1 amended: for every float input x the Sample Normalizer produces
trunc(clamp(x, -1.0, 1.0) * 32767) with truncation toward zero (Rust `as`
cast); its value always lies in [-32767, 32767]; input 1.0 yields 32767
and input -1.0 yields -32767 (the value -32768 is never produced). -/
theorem c1_normalizer_truncates_clamped_scale (x : ℚ) :
    f32SampleToI16 x = truncTowardZero (min (max x (-1)) 1 * 32767) ∧
    -32767 ≤ f32SampleToI16 x ∧ f32SampleToI16 x ≤ 32767 ∧
    f32SampleToI16 1 = 32767 ∧ f32SampleToI16 (-1) = -32767 := by
  have hlo : (-32767 : ℚ) ≤ min (max x (-1)) 1 * 32767 := by
    have := clamp_lower_bound x
    nlinarith
  have hhi : min (max x (-1)) 1 * 32767 ≤ (32767 : ℚ) := by
    have := clamp_upper_bound x
    nlinarith
  have heq : f32SampleToI16 x = truncTowardZero (min (max x (-1)) 1 * 32767) := by
    unfold f32SampleToI16 castF32ToI16
    rw [if_neg (by linarith), if_neg (by linarith)]
  refine ⟨heq, ?_, ?_, ?_, ?_⟩
  · rw [heq]
    exact le_truncTowardZero _ (-32767) (by norm_num) (by push_cast; linarith)
  · rw [heq]
    exact truncTowardZero_le _ 32767 (by push_cast; linarith)
  · unfold f32SampleToI16 castF32ToI16 truncTowardZero
    norm_num
  · unfold f32SampleToI16 castF32ToI16 truncTowardZero
    norm_num [Int.ceil_eq_iff]

/-! ## WAV container

Modelled from the spec: the Rust Container Writer (hound-based `write` /
`finalize`) is not part of the repository snapshot, only the README's
usage sketch.  §4.4 and §6 fix the byte format: a fixed-size header with
`{ channel_count: uint16, sample_rate: uint32, bits_per_sample: uint16 =
16, format_tag: integer-PCM }` followed by raw little-endian 16-bit
signed samples, with the length fields patched at finalize time. -/

/-- Little-endian byte pair of a 16-bit unsigned value. -/
def u16le (n : ℕ) : List ℕ := [n % 256, n / 256 % 256]

/-- Little-endian byte quadruple of a 32-bit unsigned value. -/
def u32le (n : ℕ) : List ℕ :=
  [n % 256, n / 256 % 256, n / 65536 % 256, n / 16777216 % 256]

/-- Two's-complement little-endian encoding of one signed 16-bit sample. -/
def encodeI16 (s : ℤ) : List ℕ :=
  [(s % 65536).toNat % 256, (s % 65536).toNat / 256]

/-- Decode one signed 16-bit sample from its two little-endian bytes. -/
def decodeI16 (b0 b1 : ℕ) : ℤ :=
  if b0 + 256 * b1 < 32768 then ((b0 + 256 * b1 : ℕ) : ℤ)
  else ((b0 + 256 * b1 : ℕ) : ℤ) - 65536

/-- The raw sample stream: each sample as two little-endian bytes. -/
def encodeSamples : List ℤ → List ℕ
  | [] => []
  | s :: t => encodeI16 s ++ encodeSamples t

/-- Decode a byte stream back into 16-bit samples; an odd trailing byte
means the stream is truncated mid-sample. -/
def decodeSamples : List ℕ → Option (List ℤ)
  | [] => some []
  | b0 :: b1 :: rest => (decodeSamples rest).map (fun l => decodeI16 b0 b1 :: l)
  | _ => none

/-- Modelled from the spec: the canonical 44-byte PCM WAV header for
`dataSize` bytes of sample data (RIFF size and data size fields correct,
as finalize leaves them). -/
def wavHeader (ch rate dataSize : ℕ) : List ℕ :=
  [82, 73, 70, 70] ++ u32le (36 + dataSize) ++
  [87, 65, 86, 69, 102, 109, 116, 32, 16, 0, 0, 0, 1, 0] ++
  u16le ch ++ u32le rate ++ u32le (rate * ch * 2) ++ u16le (ch * 2) ++
  [16, 0, 100, 97, 116, 97] ++ u32le dataSize

/-- Modelled from the spec: the finalized file the Container Writer
produces — header first, then the raw little-endian sample stream. -/
def wavWrite (ch rate : ℕ) (samples : List ℤ) : List ℕ :=
  wavHeader ch rate (2 * samples.length) ++ encodeSamples samples

/-- Modelled from the spec: the header as it sits on disk before
finalize, its two length fields still holding the placeholder 0. -/
def wavHeaderUnfinalized (ch rate : ℕ) : List ℕ :=
  [82, 73, 70, 70] ++ u32le 0 ++
  [87, 65, 86, 69, 102, 109, 116, 32, 16, 0, 0, 0, 1, 0] ++
  u16le ch ++ u32le rate ++ u32le (rate * ch * 2) ++ u16le (ch * 2) ++
  [16, 0, 100, 97, 116, 97] ++ u32le 0

/-- Modelled from the spec: the on-disk bytes after a failure partway
through `write` — the unfinalized header plus the first k samples. -/
def wavBytesBeforeFinalize (ch rate : ℕ) (samples : List ℤ) (k : ℕ) : List ℕ :=
  wavHeaderUnfinalized ch rate ++ encodeSamples (samples.take k)

/-- What a conforming reader extracts from a WAV file. -/
structure WavData where
  channels : ℕ
  sampleRate : ℕ
  samples : List ℤ
deriving DecidableEq

/-- Modelled from the spec: a conforming reader.  It demands the RIFF
magic, a 16-byte integer-PCM fmt chunk with 16 bits per sample, length
fields consistent with the actual file size, and a sample stream of
whole samples. -/
def wavParse (bytes : List ℕ) : Option WavData :=
  match bytes with
  | 82 :: 73 :: 70 :: 70 :: z0 :: z1 :: z2 :: z3 ::
    87 :: 65 :: 86 :: 69 :: 102 :: 109 :: 116 :: 32 ::
    16 :: 0 :: 0 :: 0 :: 1 :: 0 :: c0 :: c1 :: r0 :: r1 :: r2 :: r3 ::
    _ :: _ :: _ :: _ :: _ :: _ :: 16 :: 0 ::
    100 :: 97 :: 116 :: 97 :: d0 :: d1 :: d2 :: d3 :: rest =>
    if z0 + 256 * z1 + 65536 * z2 + 16777216 * z3 = 36 + rest.length ∧
       d0 + 256 * d1 + 65536 * d2 + 16777216 * d3 = rest.length ∧
       c0 + 256 * c1 ≠ 0 then
      match decodeSamples rest with
      | some samples =>
        some ⟨c0 + 256 * c1, r0 + 256 * r1 + 65536 * r2 + 16777216 * r3, samples⟩
      | none => none
    else none
  | _ => none

theorem encodeSamples_length (l : List ℤ) :
    (encodeSamples l).length = 2 * l.length := by
  induction l with
  | nil => rfl
  | cons s t ih => simp [encodeSamples, encodeI16, ih]; omega

theorem decodeI16_encodeI16 (s : ℤ) (h1 : -32768 ≤ s) (h2 : s ≤ 32767) :
    decodeI16 ((s % 65536).toNat % 256) ((s % 65536).toNat / 256) = s := by
  simp only [decodeI16]
  split <;> omega

theorem decodeSamples_encodeSamples (l : List ℤ)
    (h : ∀ s ∈ l, -32768 ≤ s ∧ s ≤ 32767) :
    decodeSamples (encodeSamples l) = some l := by
  induction l with
  | nil => rfl
  | cons s t ih =>
    have hs := h s (List.mem_cons_self s t)
    have ht : ∀ x ∈ t, -32768 ≤ x ∧ x ≤ 32767 :=
      fun x hx => h x (List.mem_cons_of_mem s hx)
    have key := decodeI16_encodeI16 s hs.1 hs.2
    simp [encodeSamples, encodeI16, decodeSamples, ih ht, key]

set_option maxHeartbeats 1600000 in
theorem wav_roundtrip (ch rate : ℕ) (samples : List ℤ)
    (hch0 : ch ≠ 0) (hch : ch < 65536) (hrate : rate < 4294967296)
    (hsize : 36 + 2 * samples.length < 4294967296)
    (hrange : ∀ s ∈ samples, -32768 ≤ s ∧ s ≤ 32767) :
    wavParse (wavWrite ch rate samples) = some ⟨ch, rate, samples⟩ := by
  have hlen := encodeSamples_length samples
  have hdec := decodeSamples_encodeSamples samples hrange
  simp only [wavWrite, wavHeader, u16le, u32le, List.cons_append, List.nil_append]
  simp only [wavParse, hlen, hdec]
  rw [if_pos]
  · simp only [Option.some.injEq, WavData.mk.injEq]
    exact ⟨by omega, by omega, trivial⟩
  · exact ⟨by omega, by omega, by omega⟩

set_option maxHeartbeats 1600000 in
theorem wavParse_unfinalized_none (ch rate : ℕ) (samples : List ℤ) (k : ℕ) :
    wavParse (wavBytesBeforeFinalize ch rate samples k) = none := by
  simp only [wavBytesBeforeFinalize, wavHeaderUnfinalized, u16le, u32le,
    List.cons_append, List.nil_append]
  simp only [wavParse]
  rw [if_neg]
  intro hc
  omega

/-- C2: recording a buffer of N delivered frames at channels=2 and
sample_rate=44100 then writing and decoding yields a file whose header
reports sample_rate=44100 and channels=2 and whose decoded frame count
equals N exactly. -/
theorem c2_roundtrip_preserves_frames (samples : List ℤ) (n : ℕ)
    (hlen : samples.length = 2 * n) (hn : n < 1000000000)
    (hrange : ∀ s ∈ samples, -32768 ≤ s ∧ s ≤ 32767) :
    wavParse (wavWrite 2 44100 samples) = some ⟨2, 44100, samples⟩ ∧
    samples.length / 2 = n := by
  constructor
  · exact wav_roundtrip 2 44100 samples (by omega) (by omega) (by omega) (by omega) hrange
  · omega

/-- C2 witness: a concrete 2-frame stereo buffer round-trips exactly. -/
theorem c2_roundtrip_witness :
    wavParse (wavWrite 2 44100 [100, -100, 32767, -32768]) =
      some ⟨2, 44100, [100, -100, 32767, -32768]⟩ ∧
    ([100, -100, 32767, -32768] : List ℤ).length / 2 = 2 :=
  c2_roundtrip_preserves_frames [100, -100, 32767, -32768] 2 (by decide) (by decide)
    (by decide)

/-- C5: the Container Writer lays the fixed-size header (channel count,
sample rate, 16 bits per sample, integer PCM) before the raw
little-endian sample stream and finalizes last: every pre-finalize
intermediate file is rejected by the conforming reader, while the
finalized file is accepted. -/
theorem c5_write_fails_atomically (ch rate : ℕ) (samples : List ℤ)
    (hch0 : ch ≠ 0) (hch : ch < 65536) (hrate : rate < 4294967296)
    (hsize : 36 + 2 * samples.length < 4294967296)
    (hrange : ∀ s ∈ samples, -32768 ≤ s ∧ s ≤ 32767) :
    wavWrite ch rate samples =
      wavHeader ch rate (2 * samples.length) ++ encodeSamples samples ∧
    (∀ k, wavParse (wavBytesBeforeFinalize ch rate samples k) = none) ∧
    wavParse (wavWrite ch rate samples) = some ⟨ch, rate, samples⟩ :=
  ⟨rfl, fun k => wavParse_unfinalized_none ch rate samples k,
    wav_roundtrip ch rate samples hch0 hch hrate hsize hrange⟩

/-- C5 witness: at a concrete mono file, the half-written file is
rejected and the finalized file is accepted. -/
theorem c5_write_fails_atomically_witness :
    wavParse (wavBytesBeforeFinalize 1 8000 [5, -5] 1) = none ∧
    wavParse (wavWrite 1 8000 [5, -5]) = some ⟨1, 8000, [5, -5]⟩ := by
  have h := c5_write_fails_atomically 1 8000 [5, -5] (by decide) (by decide)
    (by decide) (by decide) (by decide)
  exact ⟨h.2.1 1, h.2.2⟩

/-! ## Capture engine

Modelled from the spec: the Rust capture engine (the `RecordingState`
struct sketched in the README, `start_recording`, `stop_recording`) is
not part of the repository snapshot; §4.3 fixes its state machine. -/

/-- Audio configuration requested for a capture session. -/
structure AudioConfig where
  channels : ℕ
  sampleRate : ℕ
deriving DecidableEq

/-- The channel counts and sample rates the selected device reports as
supported. -/
structure DeviceInfo where
  supportedChannels : List ℕ
  supportedRates : List ℕ
deriving DecidableEq

/-- A requested config is valid iff both fields lie within the set the
selected device reports as supported (§3 invariant). -/
def configSupported (dev : DeviceInfo) (cfg : AudioConfig) : Bool :=
  dev.supportedChannels.contains cfg.channels &&
  dev.supportedRates.contains cfg.sampleRate

/-- Capture engine status flag. -/
inductive RecStatus
  | idle
  | recording
deriving DecidableEq

/-- Modelled from the spec: the capture engine's state — the recording
flag plus the shared sample buffer (§4.3, README `RecordingState`). -/
structure CaptureState where
  status : RecStatus
  buffer : List ℤ
deriving DecidableEq

/-- The synchronous error returns of the capture engine (§7 taxonomy). -/
inductive RecErr
  | alreadyRecording
  | notRecording
  | invalidConfig
deriving DecidableEq

/-- Modelled from the spec: `start(config)` per §4.3 — rejected with
AlreadyRecordingError while a session is active (no implicit
stop-then-start); the config is validated against the device's supported
set, a mismatch reports InvalidConfigError and leaves the engine Idle;
on success a fresh session with an empty buffer begins recording. -/
def startRec (dev : DeviceInfo) (cfg : AudioConfig) (st : CaptureState) :
    Except RecErr Unit × CaptureState :=
  match st.status with
  | .recording => (.error .alreadyRecording, st)
  | .idle =>
    if configSupported dev cfg then (.ok (), ⟨.recording, []⟩)
    else (.error .invalidConfig, st)

/-- Modelled from the spec: `stop()` per §4.3 — NotRecordingError while
Idle; otherwise the finished buffer is handed over and the engine
returns to Idle. -/
def stopRec (st : CaptureState) : Except RecErr (List ℤ) × CaptureState :=
  match st.status with
  | .idle => (.error .notRecording, st)
  | .recording => (.ok st.buffer, ⟨.idle, []⟩)

/-- C3: start_recording while a capture session is active returns
AlreadyRecordingError, leaves the original session's sample buffer
unchanged, and performs no implicit stop-then-start (the session keeps
recording). -/
theorem c3_start_while_recording_rejected (dev : DeviceInfo)
    (cfg : AudioConfig) (st : CaptureState) (h : st.status = .recording) :
    startRec dev cfg st = (.error .alreadyRecording, st) ∧
    (startRec dev cfg st).2.buffer = st.buffer ∧
    (startRec dev cfg st).2.status = .recording := by
  simp [startRec, h]

/-- C3 witness: a concrete active session rejects a second start and
keeps its buffer. -/
theorem c3_start_while_recording_witness :
    startRec ⟨[1, 2], [44100]⟩ ⟨2, 44100⟩ ⟨.recording, [7, 8]⟩ =
      (.error .alreadyRecording, ⟨.recording, [7, 8]⟩) ∧
    (startRec ⟨[1, 2], [44100]⟩ ⟨2, 44100⟩ ⟨.recording, [7, 8]⟩).2.buffer = [7, 8] ∧
    (startRec ⟨[1, 2], [44100]⟩ ⟨2, 44100⟩ ⟨.recording, [7, 8]⟩).2.status = .recording :=
  c3_start_while_recording_rejected ⟨[1, 2], [44100]⟩ ⟨2, 44100⟩
    ⟨.recording, [7, 8]⟩ rfl

/-- C6: a requested config whose channel count or sample rate lies
outside the device's supported set makes stream creation fail fast with
InvalidConfigError and the engine stays Idle with its state untouched —
no session starts with clamped or default values. -/
theorem c6_invalid_config_rejected (dev : DeviceInfo) (cfg : AudioConfig)
    (st : CaptureState) (hidle : st.status = .idle)
    (hbad : configSupported dev cfg = false) :
    startRec dev cfg st = (.error .invalidConfig, st) ∧
    (startRec dev cfg st).2.status = .idle := by
  simp [startRec, hidle, hbad]

/-- C6 witness: a stereo 44.1 kHz request against a mono 8 kHz device is
rejected outright. -/
theorem c6_invalid_config_witness :
    startRec ⟨[1], [8000]⟩ ⟨2, 44100⟩ ⟨.idle, []⟩ =
      (.error .invalidConfig, ⟨.idle, []⟩) ∧
    (startRec ⟨[1], [8000]⟩ ⟨2, 44100⟩ ⟨.idle, []⟩).2.status = .idle :=
  c6_invalid_config_rejected ⟨[1], [8000]⟩ ⟨2, 44100⟩ ⟨.idle, []⟩ rfl (by decide)

/-- C8: stop_recording with no active capture session returns
NotRecordingError — a distinct error outcome, never a success (empty or
otherwise), and the state is untouched. -/
theorem c8_stop_while_idle_not_recording (st : CaptureState)
    (h : st.status = .idle) :
    stopRec st = (.error .notRecording, st) ∧
    ∀ l, (stopRec st).1 ≠ .ok l := by
  simp [stopRec, h]

/-- C8 witness: stopping a concrete idle engine reports NotRecordingError. -/
theorem c8_stop_while_idle_witness :
    stopRec ⟨.idle, [3]⟩ = (.error .notRecording, ⟨.idle, [3]⟩) ∧
    ∀ l, (stopRec ⟨.idle, [3]⟩).1 ≠ .ok l :=
  c8_stop_while_idle_not_recording ⟨.idle, [3]⟩ rfl

/-! ## Playback engine

Modelled from the spec: the Rust playback engine (`play_audio`,
`stop_audio`, the completion event) is not part of the repository
snapshot, only its frontend callers; §3 and §4.5 fix its behavior:
at most one concurrent session, last-start-wins, and a terminal
completion event fired exactly once per session. -/

/-- Control actions on the playback engine: start a new session, stop
explicitly, natural end-of-stream, and delivery of samples to the open
output stream. -/
inductive POp
  | play
  | stop
  | eos
  | deliver
deriving DecidableEq

/-- Observable playback events: the terminal completion event of a
session, and delivery of a sample of a session to the hardware. -/
inductive PEv
  | completed (sid : ℕ)
  | delivered (sid : ℕ)
deriving DecidableEq

/-- Playback engine state: the id the next session will get, and the
list of currently open output streams (by session id). -/
structure PState where
  nextId : ℕ
  streams : List ℕ
deriving DecidableEq

/-- The engine before any playback. -/
def pinit : PState := ⟨0, []⟩

/-- Modelled from the spec (§4.5): one control action.  `play` stops any
active session first — its completion event fires — then opens the new
session's stream; `stop` and end-of-stream close the stream and fire the
completion event (a no-op when Idle); `deliver` sends one sample of the
open session to the hardware. -/
def pstep (st : PState) : POp → PState × List PEv
  | .play => (⟨st.nextId + 1, [st.nextId]⟩, st.streams.map PEv.completed)
  | .stop => (⟨st.nextId, []⟩, st.streams.map PEv.completed)
  | .eos => (⟨st.nextId, []⟩, st.streams.map PEv.completed)
  | .deliver => (st, st.streams.map PEv.delivered)

/-- Run a sequence of control actions, collecting the chronological
event trace. -/
def prun (st : PState) : List POp → PState × List PEv
  | [] => (st, [])
  | op :: ops =>
    let p := pstep st op
    let q := prun p.1 ops
    (q.1, p.2 ++ q.2)

/-- How many completion events for session s a trace holds. -/
def countCompleted (s : ℕ) : List PEv → ℕ
  | [] => 0
  | PEv.completed s' :: t => (if s' = s then 1 else 0) + countCompleted s t
  | PEv.delivered _ :: t => countCompleted s t

/-- The playback invariant: open streams have allocated ids, at most one
stream is open, each ended session has exactly one completion event (and
each live or unallocated one none), and every delivered sample of a
session is preceded by the completion events of all earlier sessions. -/
def PInv (st : PState) (tr : List PEv) : Prop :=
  (∀ s ∈ st.streams, s < st.nextId) ∧
  st.streams.length ≤ 1 ∧
  (∀ s, countCompleted s tr = if s < st.nextId ∧ s ∉ st.streams then 1 else 0) ∧
  (∀ s pre post, tr = pre ++ PEv.delivered s :: post →
    ∀ s', s' < s → PEv.completed s' ∈ pre)

theorem countCompleted_append (s : ℕ) (a b : List PEv) :
    countCompleted s (a ++ b) = countCompleted s a + countCompleted s b := by
  induction a with
  | nil => simp [countCompleted]
  | cons e t ih =>
    cases e with
    | completed s' => simp [countCompleted, ih]; omega
    | delivered s' => simp [countCompleted, ih]

theorem completed_mem_of_count_pos (s : ℕ) (tr : List PEv)
    (h : 0 < countCompleted s tr) : PEv.completed s ∈ tr := by
  induction tr with
  | nil => simp [countCompleted] at h
  | cons e t ih =>
    cases e with
    | completed s' =>
      by_cases hs : s' = s
      · subst hs; exact List.mem_cons_self _ _
      · simp [countCompleted, hs] at h
        exact List.mem_cons_of_mem _ (ih h)
    | delivered s' =>
      simp [countCompleted] at h
      exact List.mem_cons_of_mem _ (ih h)

theorem ordInv_append (tr evs : List PEv)
    (h : ∀ s pre post, tr = pre ++ PEv.delivered s :: post →
      ∀ s', s' < s → PEv.completed s' ∈ pre)
    (hnew : ∀ s, PEv.delivered s ∈ evs → ∀ s', s' < s → PEv.completed s' ∈ tr) :
    ∀ s pre post, tr ++ evs = pre ++ PEv.delivered s :: post →
      ∀ s', s' < s → PEv.completed s' ∈ pre := by
  intro s pre post heq s' hlt
  rcases List.append_eq_append_iff.mp heq with ⟨m, hm1, hm2⟩ | ⟨m, hm1, hm2⟩
  · have hd : PEv.delivered s ∈ evs := by
      rw [hm2]; exact List.mem_append_right m (List.mem_cons_self _ _)
    rw [hm1]
    exact List.mem_append_left m (hnew s hd s' hlt)
  · match m, hm2 with
    | [], hm2 =>
      have hevs : evs = PEv.delivered s :: post := by simpa using hm2.symm
      have hd : PEv.delivered s ∈ evs := by
        rw [hevs]; exact List.mem_cons_self _ _
      have htr : tr = pre := by simpa using hm1
      exact htr ▸ hnew s hd s' hlt
    | e :: m', hm2 =>
      have hpair : PEv.delivered s = e ∧ post = m' ++ evs := by simpa using hm2
      exact h s pre m' (by rw [hm1, ← hpair.1]) s' hlt

theorem length_le_one_cases {α : Type} (l : List α) (h : l.length ≤ 1) :
    l = [] ∨ ∃ a, l = [a] := by
  cases l with
  | nil => exact Or.inl rfl
  | cons a t =>
    cases t with
    | nil => exact Or.inr ⟨a, rfl⟩
    | cons b t' => simp at h

theorem delivered_not_mem_map_completed (s : ℕ) (l : List ℕ) :
    PEv.delivered s ∉ l.map PEv.completed := by
  simp [List.mem_map]

theorem pstep_inv (st : PState) (tr : List PEv) (op : POp) (h : PInv st tr) :
    PInv (pstep st op).1 (tr ++ (pstep st op).2) := by
  obtain ⟨next, streams⟩ := st
  obtain ⟨hlt, hlen, hcount, hord⟩ := h
  rcases length_le_one_cases streams hlen with hemp | ⟨a, hone⟩
  · subst hemp
    cases op with
    | play =>
      refine ⟨?_, by simp [pstep], ?_, ?_⟩
      · intro s hs
        simp only [pstep, List.mem_singleton] at hs
        simp only [pstep]
        omega
      · intro s
        have hc := hcount s
        simp only [List.not_mem_nil, not_false_iff, and_true] at hc
        simp only [pstep, List.map_nil, List.append_nil, hc, List.mem_singleton]
        split_ifs <;> omega
      · simp only [pstep, List.map_nil, List.append_nil]
        exact hord
    | stop =>
      refine ⟨by intro s hs; simp [pstep] at hs, by simp [pstep], ?_, ?_⟩
      · intro s
        simp only [pstep, List.map_nil, List.append_nil]
        exact hcount s
      · simp only [pstep, List.map_nil, List.append_nil]
        exact hord
    | eos =>
      refine ⟨by intro s hs; simp [pstep] at hs, by simp [pstep], ?_, ?_⟩
      · intro s
        simp only [pstep, List.map_nil, List.append_nil]
        exact hcount s
      · simp only [pstep, List.map_nil, List.append_nil]
        exact hord
    | deliver =>
      refine ⟨hlt, hlen, ?_, ?_⟩
      · intro s
        simp only [pstep, List.map_nil, List.append_nil]
        exact hcount s
      · simp only [pstep, List.map_nil, List.append_nil]
        exact hord
  · subst hone
    have ha : a < next := hlt a (by simp)
    cases op with
    | play =>
      refine ⟨?_, by simp [pstep], ?_, ?_⟩
      · intro s hs
        simp only [pstep, List.mem_singleton] at hs
        simp only [pstep]
        omega
      · intro s
        have hc := hcount s
        simp only [List.mem_singleton] at hc
        simp only [pstep, List.map_cons, List.map_nil, countCompleted_append,
          countCompleted, hc, List.mem_singleton]
        split_ifs <;> omega
      · simp only [pstep, List.map_cons, List.map_nil]
        refine ordInv_append tr [PEv.completed a] hord ?_
        intro s hs
        exact absurd hs (delivered_not_mem_map_completed s [a])
    | stop =>
      refine ⟨by intro s hs; simp [pstep] at hs, by simp [pstep], ?_, ?_⟩
      · intro s
        have hc := hcount s
        simp only [List.mem_singleton] at hc
        simp only [pstep, List.map_cons, List.map_nil, countCompleted_append,
          countCompleted, hc, List.not_mem_nil, not_false_iff, and_true]
        split_ifs <;> omega
      · simp only [pstep, List.map_cons, List.map_nil]
        refine ordInv_append tr [PEv.completed a] hord ?_
        intro s hs
        exact absurd hs (delivered_not_mem_map_completed s [a])
    | eos =>
      refine ⟨by intro s hs; simp [pstep] at hs, by simp [pstep], ?_, ?_⟩
      · intro s
        have hc := hcount s
        simp only [List.mem_singleton] at hc
        simp only [pstep, List.map_cons, List.map_nil, countCompleted_append,
          countCompleted, hc, List.not_mem_nil, not_false_iff, and_true]
        split_ifs <;> omega
      · simp only [pstep, List.map_cons, List.map_nil]
        refine ordInv_append tr [PEv.completed a] hord ?_
        intro s hs
        exact absurd hs (delivered_not_mem_map_completed s [a])
    | deliver =>
      refine ⟨hlt, hlen, ?_, ?_⟩
      · intro s
        simp only [pstep, List.map_cons, List.map_nil, countCompleted_append,
          countCompleted]
        simpa using hcount s
      · simp only [pstep, List.map_cons, List.map_nil]
        refine ordInv_append tr [PEv.delivered a] hord ?_
        intro s hs s' hs'
        have hsa : s = a := by simpa using hs
        subst hsa
        have hc := hcount s'
        simp only [List.mem_singleton] at hc
        rw [if_pos ⟨lt_trans hs' ha, by omega⟩] at hc
        exact completed_mem_of_count_pos s' tr (by omega)

theorem prun_inv (st : PState) (tr : List PEv) (ops : List POp) (h : PInv st tr) :
    PInv (prun st ops).1 (tr ++ (prun st ops).2) := by
  induction ops generalizing st tr with
  | nil => simpa [prun] using h
  | cons op ops ih =>
    have hstep := pstep_inv st tr op h
    have := ih (pstep st op).1 (tr ++ (pstep st op).2) hstep
    simpa [prun, List.append_assoc] using this

theorem pinv_init : PInv pinit [] := by
  refine ⟨by simp [pinit], by simp [pinit], ?_, ?_⟩
  · intro s
    simp [pinit, countCompleted]
  · intro s pre post hcontra
    cases pre <;> simp at hcontra

/-- C4: for every sequence of playback operations and every session, the
terminal completion event is emitted exactly once for each session that
has ended (by natural end-of-stream or explicit stop) and never for a
session still open or never started. -/
theorem c4_completion_exactly_once (ops : List POp) (s : ℕ) :
    countCompleted s (prun pinit ops).2 =
      if s < (prun pinit ops).1.nextId ∧ s ∉ (prun pinit ops).1.streams
      then 1 else 0 := by
  have h := prun_inv pinit [] ops pinv_init
  simpa using h.2.2.1 s

/-- C7: at most one output stream is ever open, and whenever a sample of
a session is delivered, the completion event of every earlier session
already appears before it in the trace — the prior session is stopped,
and its completion fires, before the new session's samples begin. -/
theorem c7_no_overlap_last_start_wins (ops : List POp) :
    (prun pinit ops).1.streams.length ≤ 1 ∧
    (∀ s pre post, (prun pinit ops).2 = pre ++ PEv.delivered s :: post →
      ∀ s', s' < s → PEv.completed s' ∈ pre) := by
  have h := prun_inv pinit [] ops pinv_init
  exact ⟨h.2.1, by simpa using h.2.2.2⟩

/-- C7 witness: in the concrete run play, deliver, play, deliver the
first session's completion event precedes the second session's first
delivered sample. -/
theorem c7_no_overlap_witness :
    PEv.completed 0 ∈ [PEv.delivered 0, PEv.completed 0] :=
  (c7_no_overlap_last_start_wins [.play, .deliver, .play, .deliver]).2 1
    [PEv.delivered 0, PEv.completed 0] [] (by decide) 0 (by decide)

/-- The decode failure play_audio surfaces on malformed input (§7). -/
inductive PlayErr
  | decodeErr
deriving DecidableEq

/-- Modelled from the spec: `play_audio` on an in-memory encoded buffer
(§4.5).  It decodes the container first; an unreadable header fails with
DecodeError, and so does a decoded header whose channel/rate combination
lies outside what the selected output device supports — the engine never
opens a stream it cannot sustain.  Only then does the play transition
run (stopping any prior session). -/
def playAudio (dev : DeviceInfo) (bytes : List ℕ) (st : PState) :
    Except PlayErr Unit × PState × List PEv :=
  match wavParse bytes with
  | none => (.error .decodeErr, st, [])
  | some w =>
    if configSupported dev ⟨w.channels, w.sampleRate⟩ then (.ok (), pstep st .play)
    else (.error .decodeErr, st, [])

/-- C9: for every malformed or truncated playback source — an unreadable
header, or a header whose channel/rate combination the output device
does not support — play_audio returns DecodeError before any output
stream is opened: the playback state is unchanged and no stream-open or
event side effect occurs. -/
theorem c9_malformed_source_no_stream (dev : DeviceInfo) (bytes : List ℕ)
    (st : PState)
    (h : wavParse bytes = none ∨
      ∃ w, wavParse bytes = some w ∧
        configSupported dev ⟨w.channels, w.sampleRate⟩ = false) :
    playAudio dev bytes st = (.error .decodeErr, st, []) ∧
    (playAudio dev bytes st).2.1.streams = st.streams := by
  rcases h with hnone | ⟨w, hw, hbad⟩
  · simp [playAudio, hnone]
  · simp [playAudio, hw, hbad]

/-- C9 witness: a truncated 3-byte source is rejected with no stream
opened, and so is a structurally valid mono 0 Hz file on a device that
supports only 1–2 channels at 44.1/48 kHz. -/
theorem c9_malformed_source_witness :
    (playAudio ⟨[1, 2], [44100, 48000]⟩ [82, 73, 70] pinit =
        (.error .decodeErr, pinit, []) ∧
      (playAudio ⟨[1, 2], [44100, 48000]⟩ [82, 73, 70] pinit).2.1.streams =
        pinit.streams) ∧
    (playAudio ⟨[1, 2], [44100, 48000]⟩ (wavWrite 1 0 [7]) pinit =
        (.error .decodeErr, pinit, []) ∧
      (playAudio ⟨[1, 2], [44100, 48000]⟩ (wavWrite 1 0 [7]) pinit).2.1.streams =
        pinit.streams) :=
  ⟨c9_malformed_source_no_stream ⟨[1, 2], [44100, 48000]⟩ [82, 73, 70] pinit
      (Or.inl rfl),
    c9_malformed_source_no_stream ⟨[1, 2], [44100, 48000]⟩ (wavWrite 1 0 [7]) pinit
      (Or.inr ⟨⟨1, 0, [7]⟩, by decide, by decide⟩)⟩

/-! ## Frontend stopRecording wrapper, from `src/lib/recording.ts`. -/

/-- The backend's `stop_recording` response as the frontend receives it. -/
structure StopResp where
  success : Bool
  path : String
  error : Option String
deriving DecidableEq

/-- The backend's `get_audio_data` response as the frontend receives it;
`dat = none` models an absent optional `data` field. -/
structure AudioDataResp where
  success : Bool
  dat : Option String
  mimeType : String
  error : Option String
deriving DecidableEq

/-- JavaScript `e || fallback` on an optional error string: an absent or
empty message falls back to the default. -/
def errOr (e : Option String) (fallback : String) : String :=
  match e with
  | some m => if m = "" then fallback else m
  | none => fallback

/-- JavaScript falsiness of the optional `data` field: absent or empty. -/
def jsDataFalsy (d : Option String) : Bool :=
  match d with
  | some m => m = ""
  | none => true

/-- From `src/lib/recording.ts` `stopRecording`: after invoking
`stop_recording`, throw unless `success` and a non-empty `path`; then
invoke `get_audio_data`, throw unless it succeeds with non-empty data;
otherwise return the path and a `data:<mime_type>;base64,<data>` URL. -/
def stopRecordingFE (r : StopResp) (a : AudioDataResp) :
    Except String (String × String) :=
  if r.success = false ∨ r.path = "" then
    .error (errOr r.error "Unknown error")
  else if a.success = false ∨ jsDataFalsy a.dat = true then
    .error (errOr a.error "Failed to load audio data")
  else
    .ok (r.path, "data:" ++ a.mimeType ++ ";base64," ++ a.dat.getD "")

/-- C10: the frontend stopRecording wrapper throws for every backend
response with success false or an empty path, and only when success is
true and the path non-empty (and get_audio_data succeeded with non-empty
data) does it return the path together with the audio data URL
`data:<mime_type>;base64,<data>`. -/
theorem c10_stop_recording_wrapper (r : StopResp) (a : AudioDataResp) :
    ((r.success = false ∨ r.path = "") →
      stopRecordingFE r a = .error (errOr r.error "Unknown error")) ∧
    (∀ p src, stopRecordingFE r a = .ok (p, src) →
      r.success = true ∧ r.path ≠ "" ∧ p = r.path ∧
      ∃ d, a.dat = some d ∧ d ≠ "" ∧ a.success = true ∧
        src = "data:" ++ a.mimeType ++ ";base64," ++ d) := by
  constructor
  · intro hbad
    rw [stopRecordingFE, if_pos hbad]
  · intro p src hok
    by_cases h1 : r.success = false ∨ r.path = ""
    · rw [stopRecordingFE, if_pos h1] at hok
      exact absurd hok (by simp)
    · by_cases h2 : a.success = false ∨ jsDataFalsy a.dat = true
      · rw [stopRecordingFE, if_neg h1, if_pos h2] at hok
        exact absurd hok (by simp)
      · rw [stopRecordingFE, if_neg h1, if_neg h2] at hok
        push_neg at h1 h2
        have hr : r.success = true := by
          cases hb : r.success
          · exact absurd hb h1.1
          · rfl
        have hasucc : a.success = true := by
          cases hb : a.success
          · exact absurd hb h2.1
          · rfl
        have hinj := hok
        simp only [Except.ok.injEq, Prod.mk.injEq] at hinj
        cases hd : a.dat with
        | none =>
          exfalso
          apply h2.2
          simp [jsDataFalsy, hd]
        | some m =>
          have hm : m ≠ "" := by
            intro hme
            apply h2.2
            simp [jsDataFalsy, hd, hme]
          refine ⟨hr, h1.2, hinj.1.symm, m, rfl, hm, hasucc, ?_⟩
          rw [← hinj.2]
          simp [hd]

/-- C10 witness: a failed stop response throws the fallback message,
while a successful stop plus audio data yields the path and the data
URL. -/
theorem c10_stop_recording_witness :
    stopRecordingFE ⟨false, "", none⟩ ⟨true, some "QUJD", "audio/wav", none⟩ =
      .error (errOr none "Unknown error") ∧
    ((true : Bool) = true ∧ ("/tmp/rec.wav" : String) ≠ "" ∧
      ("/tmp/rec.wav" : String) = "/tmp/rec.wav" ∧
      ∃ d, (some "QUJD" : Option String) = some d ∧ d ≠ "" ∧
        (true : Bool) = true ∧
        ("data:audio/wav;base64,QUJD" : String) =
          "data:" ++ "audio/wav" ++ ";base64," ++ d) :=
  ⟨(c10_stop_recording_wrapper ⟨false, "", none⟩
      ⟨true, some "QUJD", "audio/wav", none⟩).1 (Or.inl rfl),
    (c10_stop_recording_wrapper ⟨true, "/tmp/rec.wav", none⟩
      ⟨true, some "QUJD", "audio/wav", none⟩).2 "/tmp/rec.wav"
      "data:audio/wav;base64,QUJD" (by rfl)⟩

end Rekt
